import Mathlib

/-!
Verification development for the equeue deferred-execution event queue
(src/equeue.c).  Each C function relevant to the claims is shallowly
embedded as an executable Lean definition; machine integers are modelled
as Int/Nat with explicit two's-complement wrapping where the C code
depends on it (the 32-bit tick arithmetic and the arithmetic right
shifts in the handle protocol).
-/

namespace Equeue

/-! ## Tick arithmetic

Embeds equeue_tickdiff: `(int)(a - b)` on 32-bit unsigned operands.
The unsigned difference is computed modulo 2^32 and then reinterpreted
as a signed 32-bit value.  4294967296 = 2^32, 2147483648 = 2^31. -/

def udiff (a b : Nat) : Nat :=
  (a % 4294967296 + (4294967296 - b % 4294967296)) % 4294967296

def tickdiff (a b : Nat) : Int :=
  if udiff a b < 2147483648 then (udiff a b : Int) else (udiff a b : Int) - 4294967296

/-! ## Arithmetic shift and the id protocol

`ashr a n` is the C arithmetic right shift `a >> n` on a signed value:
floor division by 2^n. -/

def ashr (a : Int) (n : Nat) : Int := Int.fdiv a (2 ^ n)

/-- Embeds equeue_incid: `if ((id+1) >> (8*sizeof(int)-1 - q->npw2)) return 1;
return id+1;` with 32-bit int, so the shift count is `31 - npw2`. -/
def equeue_incid (npw2 : Nat) (id : Int) : Int :=
  if ashr (id + 1) (31 - npw2) ≠ 0 then 1 else id + 1

/-- Embeds the handle packing in equeue_post:
`int id = (e->id << q->npw2) | ((unsigned char *)e - q->buffer)`.
For the non-negative generations the code maintains, the C int
arithmetic agrees with this Nat computation. -/
def equeue_handle (npw2 : Nat) (id offset : Nat) : Nat :=
  (id <<< npw2) ||| offset

/-! ## Cancellation

equeue_cancel only ever mutates the single chunk decoded from the
handle (`&q->buffer[id & ((1 << q->npw2)-1)]`) before deciding whether
to proceed to the unqueue/incid/dealloc path.  `equeue_cancel` below
embeds that prefix of the function: it returns the updated header of
the decoded chunk together with `true` iff control reaches
`equeue_unqueue` (the live-cancellation path). -/

structure CEvent where
  id : Int
  period : Int
  cb : Option Nat
deriving DecidableEq

/-- Embeds the branch structure of equeue_cancel on the decoded chunk `e`:
`if (e->id == -id >> q->npw2) { e->cb = 0; e->period = -1; }`
`if (e->id != id >> q->npw2) return;` — note that by C precedence the
first test is `e->id == ((-id) >> q->npw2)`. -/
def equeue_cancel (npw2 : Nat) (h : Int) (e : CEvent) : CEvent × Bool :=
  let e1 := if e.id = ashr (-h) npw2 then { e with cb := none, period := -1 } else e
  if e1.id ≠ ashr h npw2 then (e1, false) else (e1, true)

/-! ## Dispatcher fire/retire step

For one drained event, equeue_dispatch loads `cb`, calls it iff
non-null, and then either re-enqueues (period >= 0) or bumps the
generation and deallocates. -/

structure DEvent where
  id : Int
  period : Int
  cb : Option Nat
deriving DecidableEq

inductive RetireAction where
  | reenqueue (id : Int) (delay : Int)
  | dealloc (newId : Int)
deriving DecidableEq

/-- Embeds `void (*cb)(void *) = e->cb; if (cb) cb(e + 1);` — whether the
callback is invoked for a drained event. -/
def equeue_fire (e : DEvent) : Bool := e.cb.isSome

/-- Embeds the retire step of equeue_dispatch, where `e.id` is the
negated (in-flight) id: `if (e->period >= 0) { e->id = -e->id;
equeue_enqueue(q, e, e->period); } else { e->id = equeue_incid(q, -e->id);
equeue_dealloc(q, e+1); }`. -/
def equeue_retire (npw2 : Nat) (e : DEvent) : RetireAction :=
  if 0 ≤ e.period then .reenqueue (-e.id) e.period
  else .dealloc (equeue_incid npw2 (-e.id))

/-! ## Queue destruction

equeue_destroy walks the bucket heads with `es` along the next chain,
but its inner loop restarts from `q->queue` (the first bucket head)
rather than from `es`:
`for (es = q->queue; es; es = es->next)`
`  for (e = q->queue; e; e = e->sibling) if (e->dtor) e->dtor(e + 1);`
The model records the order in which destructors are invoked.  A queue
is a list of buckets; a bucket is its sibling chain (head first). -/

structure DtorEvent where
  name : Nat
  dtor : Option Nat
deriving DecidableEq

def destroyInner : List DtorEvent → List Nat
  | [] => []
  | e :: rest =>
    (match e.dtor with
     | some _ => [e.name]
     | none => []) ++ destroyInner rest

def destroyOuter (first : List DtorEvent) : List (List DtorEvent) → List Nat
  | [] => []
  | _ :: rest => destroyInner first ++ destroyOuter first rest

/-- Trace of destructor invocations performed by equeue_destroy on a
pending queue (buckets in deadline order, each bucket its sibling
chain, head first). -/
def equeue_destroy_dtors (q : List (List DtorEvent)) : List Nat :=
  destroyOuter (q.headD []) q

/-! ## Chunk allocator

The freelist `q->chunks` is a next-chain of chunks sorted by ascending
size; chunks of equal size hang off the head via `sibling`.  A chunk is
identified by its byte offset in the buffer (`cid`).  The slab is the
never-allocated tail of the buffer: `q->slab.size` bytes starting at
offset `q->slab.data`. -/

structure FreeChunk where
  cid : Nat
  size : Nat
  sibs : List Nat
deriving DecidableEq

structure Slab where
  size : Nat
  data : Nat
deriving DecidableEq

structure MemState where
  chunks : List FreeChunk
  slab : Slab
deriving DecidableEq

/-- Embeds the size adjustment at the top of equeue_mem_alloc:
`size += sizeof(struct equeue_event);
size = (size + sizeof(void*)-1) & ~(sizeof(void*)-1);`
`hdr` is sizeof(struct equeue_event) and `w` is sizeof(void*); for the
power-of-two `w` of every real platform the mask expression rounds up
to a multiple of `w`, which is what the division form computes. -/
def adjustSize (hdr w n : Nat) : Nat :=
  (n + hdr + (w - 1)) / w * w

/-- Embeds the freelist walk of equeue_mem_alloc: take the first chunk
whose size is at least the request; a sibling, if present, replaces it
in the chain and inherits its next pointer.  Returns the taken chunk as
`(cid, stored size)` together with the remaining freelist. -/
def memAllocLoop (req : Nat) : List FreeChunk → Option ((Nat × Nat) × List FreeChunk)
  | [] => none
  | c :: rest =>
    if req ≤ c.size then
      match c.sibs with
      | s :: ss => some ((c.cid, c.size), ⟨s, c.size, ss⟩ :: rest)
      | [] => some ((c.cid, c.size), rest)
    else
      match memAllocLoop req rest with
      | none => none
      | some (r, rest1) => some (r, c :: rest1)

/-- Result of a successful equeue_mem_alloc: the chunk offset, the
chunk's stored size, and `idInit = some 1` exactly when the chunk was
freshly carved from the slab (`e->id = 1`); a reused freelist chunk
keeps its previous generation (`idInit = none`). -/
structure AllocResult where
  cid : Nat
  size : Nat
  idInit : Option Int
deriving DecidableEq

/-- Embeds equeue_mem_alloc: first-fit on the ascending freelist, else
carve from the slab (`q->slab.data += size; q->slab.size -= size;
e->size = size; e->id = 1;`), else null. -/
def equeue_mem_alloc (hdr w : Nat) (st : MemState) (n : Nat) :
    Option (AllocResult × MemState) :=
  match memAllocLoop (adjustSize hdr w n) st.chunks with
  | some ((cid, csz), chunks1) => some (⟨cid, csz, none⟩, { st with chunks := chunks1 })
  | none =>
    if adjustSize hdr w n ≤ st.slab.size then
      some (⟨st.slab.data, adjustSize hdr w n, some 1⟩,
            ⟨st.chunks, ⟨st.slab.size - adjustSize hdr w n,
                         st.slab.data + adjustSize hdr w n⟩⟩)
    else none

/-- Sibling promotion when a freelist bucket head is taken: the first
stacked sibling becomes the bucket head (inheriting the next chain),
or the bucket disappears. -/
def promoteHead (c : FreeChunk) (rest : List FreeChunk) : List FreeChunk :=
  match c.sibs with
  | s :: ss => ⟨s, c.size, ss⟩ :: rest
  | [] => rest

/-- Transcription of the specification's allocation policy in its own
words (best fit on the ascending freelist via the first chunk of
sufficient size, else bump the slab with `size = requested` and
`id = 1`, else null), used to state the claim as a refinement of
`equeue_mem_alloc`. -/
def memAllocSpec (req : Nat) (st : MemState) : Option (AllocResult × MemState) :=
  match st.chunks.dropWhile (fun c => decide (c.size < req)) with
  | c :: rest =>
    some (⟨c.cid, c.size, none⟩,
          { st with chunks := st.chunks.takeWhile (fun c => decide (c.size < req))
                                ++ promoteHead c rest })
  | [] =>
    if req ≤ st.slab.size then
      some (⟨st.slab.data, req, some 1⟩,
            ⟨st.chunks, ⟨st.slab.size - req, st.slab.data + req⟩⟩)
    else none

/-- Embeds equeue_mem_dealloc: insert a chunk `(cid, sz)` into the
freelist in ascending-size order; on an exact size match the newcomer
becomes the bucket head and the old head is pushed onto its sibling
stack (`e->sibling = *p; e->next = (*p)->next;`). -/
def memDeallocLoop (cid sz : Nat) : List FreeChunk → List FreeChunk
  | [] => [⟨cid, sz, []⟩]
  | c :: rest =>
    if c.size < sz then c :: memDeallocLoop cid sz rest
    else if c.size = sz then ⟨cid, sz, c.cid :: c.sibs⟩ :: rest
    else ⟨cid, sz, []⟩ :: c :: rest

/-! ## equeue_alloc

equeue_alloc calls equeue_mem_alloc and, on success, initializes the
event header: `e->target = 0; e->period = -1; e->dtor = 0;`.  Headers
live in an arena indexed by chunk offset, so that a reused chunk's
stale header is part of the model's input. -/

structure EventHeader where
  id : Int
  target : Int
  period : Int
  dtor : Option Nat
deriving DecidableEq

structure AState where
  mem : MemState
  hdrs : Nat → EventHeader

def updHdr (f : Nat → EventHeader) (i : Nat) (v : EventHeader) : Nat → EventHeader :=
  fun j => if j = i then v else f j

/-- Embeds equeue_alloc: on a successful chunk allocation the header of
the returned chunk is overwritten with the one-shot defaults (the slab
path also stamps `id = 1` inside equeue_mem_alloc). -/
def equeue_alloc (hdr w : Nat) (st : AState) (n : Nat) : Option (Nat × AState) :=
  match equeue_mem_alloc hdr w st.mem n with
  | none => none
  | some (r, mem1) =>
    let h0 := st.hdrs r.cid
    let h1 := match r.idInit with
      | some i => { h0 with id := i }
      | none => h0
    some (r.cid, ⟨mem1, updHdr st.hdrs r.cid { h1 with target := 0, period := -1, dtor := none }⟩)

/-! ## Timed queue (functional view)

A bucket is the set of queued events sharing one target; the sibling
chain keeps them newest first (equeue_enqueue pushes an equal-target
event on top of the current bucket head).  The queue is the next-chain
of bucket heads in modular deadline order. -/

structure Bucket (α : Type) where
  target : Nat
  events : List α
deriving DecidableEq

/-- Embeds equeue_enqueue for an event with absolute target `tgt`: walk
while the next head's target strictly precedes `tgt` under tickdiff;
then either push onto the equal-target bucket (newest first) or insert
a fresh bucket. -/
def enqueueB {α : Type} (x : α) (tgt : Nat) : List (Bucket α) → List (Bucket α)
  | [] => [⟨tgt, [x]⟩]
  | b :: q =>
    if tickdiff b.target tgt < 0 then b :: enqueueB x tgt q
    else if b.target = tgt then ⟨tgt, x :: b.events⟩ :: q
    else ⟨tgt, [x]⟩ :: b :: q

/-- Embeds the drain loop of equeue_dequeue: detach every bucket whose
head's target is due at `now` (tickdiff not positive), reverse its
sibling chain onto the output (`for (e = es; e; e = e->sibling)
{ e->next = prev; prev = e; }`), and stop at the first bucket that is
not yet due.  Returns the drained events in dispatch order and the
surviving queue. -/
def dequeueB {α : Type} (now : Nat) : List (Bucket α) → List α × List (Bucket α)
  | [] => ([], [])
  | b :: q =>
    if 0 < tickdiff b.target now then ([], b :: q)
    else
      let r := dequeueB now q
      (b.events.reverse ++ r.1, r.2)

/-! ## equeue_post

equeue_post packs the handle, stores the callback, and either discards
immediately (negative configured delay: equeue_dealloc runs the
destructor and returns the chunk to the freelist) or enqueues at
`tick() + target`. -/

structure PostEvent where
  offset : Nat
  size : Nat
  id : Int
  target : Int
  period : Int
  dtor : Option Nat
deriving DecidableEq

structure PostState where
  queue : List (Bucket Nat)
  chunks : List FreeChunk
  dtorLog : List Nat
deriving DecidableEq

/-- Embeds equeue_post (events named by their chunk offset):
`int id = (e->id << q->npw2) | ((unsigned char *)e - q->buffer);
e->cb = cb; if (e->target < 0) { equeue_dealloc(q, e+1); return id; }
equeue_enqueue(q, e, e->target); ... return id;`. -/
def equeue_post (npw2 now : Nat) (st : PostState) (e : PostEvent) :
    Nat × PostState :=
  let h := equeue_handle npw2 e.id.toNat e.offset
  if e.target < 0 then
    (h, { st with
          dtorLog := st.dtorLog ++ (match e.dtor with
            | some _ => [e.offset]
            | none => []),
          chunks := memDeallocLoop e.offset e.size st.chunks })
  else
    (h, { st with queue := enqueueB e.offset ((now + e.target.toNat) % 4294967296) st.queue })

/-! ## Timed queue (pointer-level view)

The back-pointer discipline of the C code is about raw link slots, so
the claims about `e->ref` are settled on a faithful arena model: every
event owns a `next` and a `sibling` slot, and the queue head `q->queue`
is one more slot.  `ref` names the slot that (supposedly) refers to the
event.  Reads and writes follow the C statements one for one. -/

inductive Slot where
  | queueHead : Slot
  | nextOf : Nat → Slot
  | sibOf : Nat → Slot
deriving DecidableEq

structure Node where
  target : Nat
  nxt : Option Nat
  sib : Option Nat
  ref : Slot
deriving DecidableEq

structure LState where
  queue : Option Nat
  nodes : List (Nat × Node)
deriving DecidableEq

def getN (st : LState) (i : Nat) : Node :=
  (st.nodes.lookup i).getD ⟨0, none, none, .queueHead⟩

def setN (st : LState) (i : Nat) (v : Node) : LState :=
  { st with nodes := st.nodes.map (fun p => if p.1 = i then (i, v) else p) }

def setTarget (st : LState) (i : Nat) (t : Nat) : LState :=
  setN st i { getN st i with target := t }

def setNxt (st : LState) (i : Nat) (v : Option Nat) : LState :=
  setN st i { getN st i with nxt := v }

def setSib (st : LState) (i : Nat) (v : Option Nat) : LState :=
  setN st i { getN st i with sib := v }

def setRef (st : LState) (i : Nat) (v : Slot) : LState :=
  setN st i { getN st i with ref := v }

/-- Reads the event pointer stored in a link slot (`*p` for a slot
pointer `p`). -/
def readSlot (st : LState) : Slot → Option Nat
  | .queueHead => st.queue
  | .nextOf i => (getN st i).nxt
  | .sibOf i => (getN st i).sib

/-- Writes an event pointer through a link slot (`*p = e`). -/
def writeSlot (st : LState) (p : Slot) (v : Option Nat) : LState :=
  match p with
  | .queueHead => { st with queue := v }
  | .nextOf i => setNxt st i v
  | .sibOf i => setSib st i v

/-- Embeds the insertion walk of equeue_enqueue:
`struct equeue_event **p = &q->queue;
while (*p && equeue_tickdiff((*p)->target, e->target) < 0) p = &(*p)->next;`
The fuel bounds the walk; any fuel at least the chain length gives the
C behaviour. -/
def findSlot (st : LState) (tgt : Nat) : Nat → Slot → Slot
  | 0, p => p
  | fuel + 1, p =>
    match readSlot st p with
    | none => p
    | some j =>
      if tickdiff (getN st j).target tgt < 0 then findSlot st tgt fuel (.nextOf j)
      else p

/-- Embeds equeue_enqueue at the link level, statement by statement
(the event's target has already been set to the absolute deadline
`tgt`, as `e->target = equeue_tick() + ms` does). -/
def equeue_enqueue_ptr (st0 : LState) (e : Nat) (tgt : Nat) : LState :=
  let st := setTarget st0 e tgt
  let p := findSlot st tgt (st.nodes.length + 1) .queueHead
  let st2 :=
    match readSlot st p with
    | some j =>
      if (getN st j).target = tgt then
        -- (*p)->ref = &e->sibling; e->sibling = *p;
        -- if ((*p)->next) (*p)->next->ref = &e->next; e->next = (*p)->next;
        let sA := setRef st j (.sibOf e)
        let sB := setSib sA e (some j)
        let sC :=
          match (getN sB j).nxt with
          | some k => setRef sB k (.nextOf e)
          | none => sB
        setNxt sC e ((getN sC j).nxt)
      else
        -- (*p)->ref = &e->next; e->next = *p; e->sibling = 0;
        let sA := setRef st j (.nextOf e)
        let sB := setNxt sA e (some j)
        setSib sB e none
    | none =>
      -- e->next = 0; e->sibling = 0;
      let sB := setNxt st e none
      setSib sB e none
  -- e->ref = p; *p = e;
  let st3 := setRef st2 e p
  writeSlot st3 p (some e)

/-- Embeds equeue_unqueue at the link level, statement by statement. -/
def equeue_unqueue_ptr (st : LState) (e : Nat) : LState :=
  match (getN st e).sib with
  | some s =>
    -- if (e->next) e->next->ref = &e->sibling->next;
    -- e->sibling->next = e->next; e->sibling->ref = e->ref; *e->ref = e->sibling;
    let s1 :=
      match (getN st e).nxt with
      | some k => setRef st k (.nextOf s)
      | none => st
    let s2 := setNxt s1 s ((getN s1 e).nxt)
    let s3 := setRef s2 s ((getN s2 e).ref)
    writeSlot s3 ((getN s3 e).ref) ((getN s3 e).sib)
  | none =>
    -- if (e->next) e->next->ref = e->ref; *e->ref = e->next;
    let s1 :=
      match (getN st e).nxt with
      | some k => setRef st k ((getN st e).ref)
      | none => st
    writeSlot s1 ((getN s1 e).ref) ((getN s1 e).nxt)

/-- Events reachable from a link slot value by following `next` and
`sibling` edges, bounded by fuel. -/
def reachFrom (st : LState) : Nat → Option Nat → List Nat
  | 0, _ => []
  | _, none => []
  | fuel + 1, some i =>
    i :: (reachFrom st fuel (getN st i).nxt ++ reachFrom st fuel (getN st i).sib)

/-! Concrete trace for the back-pointer claim.  Four events A=1, X=2,
B=3, C=4; A, B, C share target 0 and X has target 10.  The operation
sequence is: enqueue A, enqueue X, enqueue B, enqueue C, unqueue B
(cancel of a middle sibling), unqueue X (cancel of the next bucket's
head). -/

def c7s0 : LState :=
  ⟨none,
   [(1, ⟨0, none, none, .queueHead⟩),
    (2, ⟨0, none, none, .queueHead⟩),
    (3, ⟨0, none, none, .queueHead⟩),
    (4, ⟨0, none, none, .queueHead⟩)]⟩

def c7mid : LState :=
  equeue_unqueue_ptr
    (equeue_enqueue_ptr
      (equeue_enqueue_ptr
        (equeue_enqueue_ptr
          (equeue_enqueue_ptr c7s0 1 0)
          2 10)
        3 0)
      4 0)
    3

def c7s : LState := equeue_unqueue_ptr c7mid 2

/-! ## Helper lemmas -/

lemma lor_ne_zero_left (a b : Nat) (ha : a ≠ 0) : a ||| b ≠ 0 := by
  intro h
  apply ha
  apply Nat.zero_of_testBit_eq_false
  intro i
  have h2 := congrArg (fun n => Nat.testBit n i) h
  simp only [Nat.testBit_lor, Nat.zero_testBit, Bool.or_eq_false_iff] at h2
  exact h2.1

lemma handle_ne_zero (npw2 idn off : Nat) (h : 1 ≤ idn) :
    equeue_handle npw2 idn off ≠ 0 := by
  unfold equeue_handle
  apply lor_ne_zero_left
  rw [Nat.shiftLeft_eq]
  have h2 : 0 < 2 ^ npw2 := Nat.pos_pow_of_pos npw2 (by omega)
  have := Nat.mul_pos h h2
  omega

lemma tickdiff_self (t : Nat) : tickdiff t t = 0 := by
  unfold tickdiff udiff
  have h1 : t % 4294967296 < 4294967296 := Nat.mod_lt t (by omega)
  have h2 : (t % 4294967296 + (4294967296 - t % 4294967296)) % 4294967296 = 0 := by omega
  rw [h2]
  norm_num

lemma tickdiff_flip (a b : Nat) (ha : a < 4294967296) (hb : b < 4294967296)
    (hne : a ≠ b) (h : ¬ tickdiff a b < 0) : tickdiff b a < 0 := by
  unfold tickdiff udiff at *
  rw [Nat.mod_eq_of_lt ha, Nat.mod_eq_of_lt hb] at *
  split at h <;> split <;> omega

/-! ## Claim theorems -/

/-- C1 (code bug).  Take npw2 = 7 and the handle 136 = (gen 1 << 7) | offset 8,
so the decoded chunk sits at offset 8 and the handle's generation is
`ashr 136 7 = 1`.  The chunk's stored id is -1 = -gen: the event is in
flight and matches the handle's generation, so the claim requires cancel
to clear `cb` and set `period = -1`.  The code instead compares the
stored id against `(-136) >> 7 = -2` (C precedence parses
`-id >> q->npw2` as `(-id) >> npw2`, which equals `-(id >> npw2)` only
at offset 0), misses the in-flight event, and returns leaving `cb` and
`period` untouched. -/
theorem cancel_inflight_missed_bug :
    (⟨-1, 5, some 0⟩ : CEvent).id = -(ashr 136 7)
    ∧ equeue_cancel 7 136 ⟨-1, 5, some 0⟩ = (⟨-1, 5, some 0⟩, false) := by decide

/-- C6 (code bug).  Same handle 136 (gen 1, offset 8, npw2 = 7), but now
the chunk's stored id is -2: neither +1 nor -1, so the handle is stale
and the claim requires cancel to return with no state change.  Because
`(-136) >> 7 = -2`, the first branch of equeue_cancel fires and clears
the chunk's `cb` and forces `period = -1` — mutating an in-flight event
of a different generation through a stale handle. -/
theorem cancel_stale_mutates_bug :
    (⟨-2, 5, some 3⟩ : CEvent).id ≠ ashr 136 7
    ∧ (⟨-2, 5, some 3⟩ : CEvent).id ≠ -(ashr 136 7)
    ∧ equeue_cancel 7 136 ⟨-2, 5, some 3⟩ = (⟨-2, -1, none⟩, false) := by decide

/-- C2 (code bug).  A queue holding two pending single-event buckets
(event 0, then event 1, both with destructors) is destroyed: the inner
loop of equeue_destroy iterates the sibling chain of `q->queue` (the
first bucket head) on every outer iteration, so event 0's destructor
runs twice and event 1's destructor never runs — the claim requires
exactly one invocation for each pending event. -/
theorem destroy_dtor_double_bug :
    equeue_destroy_dtors [[⟨0, some 0⟩], [⟨1, some 0⟩]] = [0, 0]
    ∧ (equeue_destroy_dtors [[⟨0, some 0⟩], [⟨1, some 0⟩]]).count 0 = 2
    ∧ (equeue_destroy_dtors [[⟨0, some 0⟩], [⟨1, some 0⟩]]).count 1 = 0 := by decide

/-- C3 (counterexample).  A drained in-flight event with a null `cb`
(so it is not fired) and `period = 0` is nonetheless re-enqueued by the
retire step: the code tests only `e->period >= 0` and never consults
`cb`, contradicting the claim's "if and only if period ≥ 0 and cb was
non-null when fired". -/
theorem retire_cb_null_reenqueued :
    (⟨-1, 0, none⟩ : DEvent).cb = none
    ∧ equeue_fire ⟨-1, 0, none⟩ = false
    ∧ equeue_retire 7 ⟨-1, 0, none⟩ = .reenqueue 1 0 := by decide

/-- C3 (amended).  In the dispatcher's retire step, a dispatched event
whose in-flight id is `-g` is re-enqueued with delay = period and the
un-negated id `g` (same generation) if and only if `period ≥ 0`,
regardless of `cb`; otherwise the generation on the negated id is
bumped (`equeue_incid` of the un-negated id) and the chunk is
deallocated. -/
theorem retire_amended (npw2 : Nat) (g : Int) (e : DEvent) (he : e.id = -g) :
    (equeue_retire npw2 e = .reenqueue g e.period ↔ 0 ≤ e.period)
    ∧ (equeue_retire npw2 e = .dealloc (equeue_incid npw2 g) ↔ e.period < 0) := by
  unfold equeue_retire
  rw [he, neg_neg]
  by_cases hp : 0 ≤ e.period
  · rw [if_pos hp]
    constructor
    · exact ⟨fun _ => hp, fun _ => rfl⟩
    · constructor
      · intro h
        exact absurd h (by simp)
      · intro h
        exact absurd h (by omega)
  · rw [if_neg hp]
    constructor
    · constructor
      · intro h
        exact absurd h (by simp)
      · intro h
        exact absurd h hp
    · exact ⟨fun _ => by omega, fun _ => rfl⟩

/-- Witness for `retire_amended` at a concrete periodic event. -/
theorem retire_amended_witness :
    (equeue_retire 7 ⟨-5, 3, some 1⟩ = .reenqueue 5 3 ↔ 0 ≤ (⟨-5, 3, some 1⟩ : DEvent).period)
    ∧ (equeue_retire 7 ⟨-5, 3, some 1⟩ = .dealloc (equeue_incid 7 5)
        ↔ (⟨-5, 3, some 1⟩ : DEvent).period < 0) :=
  retire_amended 7 5 ⟨-5, 3, some 1⟩ (by decide)

/-- C7 (code bug).  Events A = 1, X = 2, B = 3, C = 4; A, B, C are
posted into the bucket at target 0 (in that order) and X into the
bucket at target 10, then B is unqueued (a middle sibling) and then X
(the second bucket's head).  Unqueueing B rewires X's `ref` into the
stale `next` slot of sibling A, so the subsequent unqueue of X clears
A's `next` slot instead of the live link: afterwards X is still
reachable from the queue head as C's `next` successor, while the slot
X's `ref` points at no longer holds X — the back-pointer invariant
`*e.ref == e` is broken for an event still linked on the queue. -/
theorem unqueue_sibling_corruption_bug :
    c7s.queue = some 4
    ∧ (getN c7s 4).nxt = some 2
    ∧ 2 ∈ reachFrom c7s 10 c7s.queue
    ∧ readSlot c7s (getN c7s 2).ref ≠ some 2 := by decide

/-- C10.  Whenever equeue_alloc succeeds — whether the chunk was reused
from the freelist with an arbitrary stale header or freshly carved from
the slab — the returned event's header holds the one-shot defaults:
`target = 0`, `period = -1`, `dtor = null`. -/
theorem alloc_initializes_header (hdr w : Nat) (st : AState) (n : Nat) :
    match equeue_alloc hdr w st n with
    | none => True
    | some (cid, st1) =>
        (st1.hdrs cid).target = 0 ∧ (st1.hdrs cid).period = -1
          ∧ (st1.hdrs cid).dtor = none := by
  unfold equeue_alloc
  cases equeue_mem_alloc hdr w st.mem n with
  | none => trivial
  | some r =>
    obtain ⟨res, mem1⟩ := r
    simp only [updHdr, if_pos rfl]
    exact ⟨rfl, rfl, rfl⟩

lemma enqueueB_same_target {α : Type} (x : α) (t : Nat) (ys : List α) :
    enqueueB x t [⟨t, ys⟩] = [⟨t, x :: ys⟩] := by
  simp [enqueueB, tickdiff_self]

lemma foldl_enqueueB_same {α : Type} (t : Nat) (xs ys : List α) :
    xs.foldl (fun q x => enqueueB x t q) [⟨t, ys⟩] = [⟨t, xs.reverse ++ ys⟩] := by
  induction xs generalizing ys with
  | nil => simp
  | cons x xs ih =>
    rw [List.foldl_cons, enqueueB_same_target, ih]
    simp

lemma dequeueB_drained {α : Type} (now : Nat) (q : List (Bucket α)) :
    (dequeueB now q).1
      = ((q.takeWhile fun b => decide (tickdiff b.target now ≤ 0)).map
          (fun b => b.events.reverse)).flatten := by
  induction q with
  | nil => simp [dequeueB]
  | cons b q ih =>
    by_cases h : 0 < tickdiff b.target now
    · rw [dequeueB, if_pos h, List.takeWhile_cons_of_neg (by simpa using by omega)]
      simp
    · rw [dequeueB, if_neg h, List.takeWhile_cons_of_pos (by simpa using by omega)]
      simpa using ih

lemma enqueueB_head {α : Type} (x : α) (tgt : Nat) (q : List (Bucket α)) :
    (enqueueB x tgt q).head? = q.head?
    ∨ ∃ es, (enqueueB x tgt q).head? = some ⟨tgt, es⟩ := by
  cases q with
  | nil => exact Or.inr ⟨[x], rfl⟩
  | cons b q =>
    by_cases h1 : tickdiff b.target tgt < 0
    · rw [enqueueB, if_pos h1]
      exact Or.inl rfl
    · by_cases h2 : b.target = tgt
      · rw [enqueueB, if_neg h1, if_pos h2]
        exact Or.inr ⟨x :: b.events, rfl⟩
      · rw [enqueueB, if_neg h1, if_neg h2]
        exact Or.inr ⟨[x], rfl⟩

lemma chain'_enqueueB {α : Type} (x : α) (tgt : Nat) (q : List (Bucket α))
    (htgt : tgt < 4294967296) (hq : ∀ b ∈ q, b.target < 4294967296)
    (hc : List.Chain' (fun a b : Bucket α => tickdiff a.target b.target < 0) q) :
    List.Chain' (fun a b : Bucket α => tickdiff a.target b.target < 0) (enqueueB x tgt q) := by
  induction q with
  | nil => simp [enqueueB]
  | cons b q ih =>
    rw [List.chain'_cons'] at hc
    by_cases h1 : tickdiff b.target tgt < 0
    · rw [enqueueB, if_pos h1, List.chain'_cons']
      refine ⟨?_, ih (fun c hm => hq c (List.mem_cons_of_mem b hm)) hc.2⟩
      intro y hy
      rcases enqueueB_head x tgt q with hh | ⟨es, hh⟩
      · exact hc.1 y (by rw [← hh]; exact hy)
      · rw [hh] at hy
        simp only [Option.mem_def, Option.some_inj] at hy
        rw [← hy]
        exact h1
    · by_cases h2 : b.target = tgt
      · rw [enqueueB, if_neg h1, if_pos h2, List.chain'_cons']
        refine ⟨?_, hc.2⟩
        intro y hy
        have := hc.1 y hy
        rw [h2] at this
        exact this
      · rw [enqueueB, if_neg h1, if_neg h2, List.chain'_cons]
        refine ⟨?_, List.chain'_cons'.mpr hc⟩
        exact tickdiff_flip b.target tgt (hq b (List.mem_cons_self b q)) htgt h2 h1

lemma memAllocLoop_eq (req : Nat) (l : List FreeChunk) :
    memAllocLoop req l =
      match l.dropWhile (fun c => decide (c.size < req)) with
      | c :: rest =>
        some ((c.cid, c.size),
              l.takeWhile (fun c => decide (c.size < req)) ++ promoteHead c rest)
      | [] => none := by
  induction l with
  | nil => rfl
  | cons c l ih =>
    by_cases h : req ≤ c.size
    · have hp : (fun c : FreeChunk => decide (c.size < req)) c = false := by
        simp only [decide_eq_false_iff_not]
        omega
      rw [List.dropWhile_cons_of_neg (by simpa using hp),
          List.takeWhile_cons_of_neg (by simpa using hp)]
      simp only [memAllocLoop, if_pos h, promoteHead]
      cases c.sibs <;> simp
    · have hp : (fun c : FreeChunk => decide (c.size < req)) c = true := by
        simp only [decide_eq_true_eq]
        omega
      rw [List.dropWhile_cons_of_pos (by simpa using hp),
          List.takeWhile_cons_of_pos (by simpa using hp)]
      simp only [memAllocLoop, if_neg h]
      rw [ih]
      cases hd : l.dropWhile (fun c => decide (c.size < req)) <;> simp

/-- C5.  equeue_mem_alloc refines the specified allocation policy: the
requested size is the user size plus the header, rounded up to a word
multiple; the first freelist chunk of sufficient size is taken, its
sibling (if any) replacing it in the ordered chain and inheriting its
next; failing that, the slab is carved with `size = requested` and
`id = 1` when it has enough bytes; otherwise the result is null. -/
theorem mem_alloc_first_fit (hdr w : Nat) (st : MemState) (n : Nat) :
    equeue_mem_alloc hdr w st n = memAllocSpec (adjustSize hdr w n) st := by
  unfold equeue_mem_alloc memAllocSpec
  rw [memAllocLoop_eq]
  cases hd : st.chunks.dropWhile (fun c => decide (c.size < adjustSize hdr w n)) <;> simp

lemma ashr_eq_zero_iff (x : Int) (k : Nat) (hx : 0 ≤ x) : ashr x k = 0 ↔ x < 2 ^ k := by
  unfold ashr
  obtain ⟨n, rfl⟩ := Int.eq_ofNat_of_zero_le hx
  have hf := Int.ofNat_fdiv n (2 ^ k)
  simp only [Int.ofNat_eq_natCast] at hf ⊢
  have hcast : ((2 : Int) ^ k) = ((2 ^ k : Nat) : Int) := by
    push_cast
    ring
  rw [hcast, ← hf]
  constructor
  · intro h
    have h2 : n / 2 ^ k = 0 := by exact_mod_cast h
    have h3 : n < 2 ^ k := by
      rw [Nat.div_eq_zero_iff (Nat.pos_pow_of_pos k (by omega))] at h2
      exact h2
    exact_mod_cast h3
  · intro h
    have h3 : n < 2 ^ k := by exact_mod_cast h
    have h2 : n / 2 ^ k = 0 := Nat.div_eq_of_lt h3
    exact_mod_cast congrArg (Nat.cast : Nat → Int) h2

/-- C8.  Handles of valid postings are non-zero: the packed handle
`(id << npw2) | offset` cannot be 0 while the stored generation is at
least 1; the generation stays at least 1 across equeue_incid; and
equeue_incid wraps to 1 exactly when the incremented generation,
shifted into its handle position, would reach the sign bit 2^31. -/
theorem post_handle_nonzero (npw2 : Nat) (id : Int) (offset : Nat)
    (hn : npw2 ≤ 31) (hid : 1 ≤ id) :
    equeue_handle npw2 id.toNat offset ≠ 0
    ∧ 1 ≤ equeue_incid npw2 id
    ∧ (equeue_incid npw2 id = 1 ↔ 2 ^ 31 ≤ (id + 1) * 2 ^ npw2) := by
  refine ⟨handle_ne_zero npw2 id.toNat offset (by omega), ?_, ?_⟩
  · unfold equeue_incid
    split
    · omega
    · omega
  · have hz : ashr (id + 1) (31 - npw2) = 0 ↔ id + 1 < 2 ^ (31 - npw2) :=
      ashr_eq_zero_iff (id + 1) (31 - npw2) (by omega)
    have hpow : (2 : Int) ^ (31 - npw2) * 2 ^ npw2 = 2 ^ 31 := by
      rw [← pow_add]
      congr 1
      omega
    have hmul : 2 ^ (31 - npw2) ≤ id + 1 ↔ (2 : Int) ^ 31 ≤ (id + 1) * 2 ^ npw2 := by
      rw [← hpow]
      exact (mul_le_mul_right (pow_pos (by norm_num) npw2)).symm
    unfold equeue_incid
    by_cases hc : ashr (id + 1) (31 - npw2) = 0
    · rw [if_neg (by simpa using hc)]
      have h4 : id + 1 < 2 ^ (31 - npw2) := hz.mp hc
      constructor
      · intro h
        omega
      · intro h
        exact absurd (hmul.mpr h) (by omega)
    · rw [if_pos hc]
      simp only [true_iff]
      have h4 : 2 ^ (31 - npw2) ≤ id + 1 := by
        by_contra hlt
        exact hc (hz.mpr (by omega))
      exact hmul.mp h4

/-- Witness for `post_handle_nonzero` at npw2 = 7, generation 1,
offset 5. -/
theorem post_handle_nonzero_witness :
    equeue_handle 7 (1 : Int).toNat 5 ≠ 0
    ∧ 1 ≤ equeue_incid 7 1
    ∧ (equeue_incid 7 1 = 1 ↔ 2 ^ 31 ≤ ((1 : Int) + 1) * 2 ^ 7) :=
  post_handle_nonzero 7 1 5 (by decide) (by decide)

/-- C4.  Dispatch order of the timed queue.  First, events posted with
one shared target dispatch FIFO: posting `xs` in order into one bucket
and draining it while due yields exactly `xs` (the newest-first sibling
chain is reversed by the dequeue step).  Second, on any queue the
drained list is the concatenation, in queue order, of the reversed
sibling chains of the due buckets.  Third, enqueue keeps the bucket
heads in modular deadline order (adjacent tickdiff negative), and the
drained due prefix inherits that order, so across distinct targets
drained events appear in modular deadline order. -/
theorem dequeue_fifo_order {α : Type} (xs : List α) (x : α) (t tgt now : Nat)
    (q : List (Bucket α))
    (hdue : tickdiff t now ≤ 0)
    (htgt : tgt < 4294967296) (hq : ∀ b ∈ q, b.target < 4294967296)
    (hchain : List.Chain' (fun a b : Bucket α => tickdiff a.target b.target < 0) q) :
    (dequeueB now (xs.foldl (fun qq y => enqueueB y t qq) [])).1 = xs
    ∧ (dequeueB now q).1
        = ((q.takeWhile fun b => decide (tickdiff b.target now ≤ 0)).map
            (fun b => b.events.reverse)).flatten
    ∧ List.Chain' (fun a b : Bucket α => tickdiff a.target b.target < 0) (enqueueB x tgt q)
    ∧ List.Chain' (fun a b : Bucket α => tickdiff a.target b.target < 0)
        (q.takeWhile fun b => decide (tickdiff b.target now ≤ 0)) := by
  refine ⟨?_, dequeueB_drained now q, chain'_enqueueB x tgt q htgt hq hchain,
          hchain.prefix (List.takeWhile_prefix _)⟩
  cases xs with
  | nil => simp [dequeueB]
  | cons x0 xs0 =>
    rw [List.foldl_cons]
    have h0 : enqueueB x0 t ([] : List (Bucket α)) = [⟨t, [x0]⟩] := rfl
    rw [h0, foldl_enqueueB_same, dequeueB, if_neg (by dsimp only; omega)]
    simp [dequeueB]

/-- Witness for `dequeue_fifo_order` at a concrete queue: two events
posted at target 5 drain in post order at tick 5; of the buckets at
targets 5 and 7 only the former is due. -/
theorem dequeue_fifo_order_witness :
    (dequeueB 5 (([7, 8] : List Nat).foldl (fun qq y => enqueueB y 5 qq) [])).1 = [7, 8]
    ∧ (dequeueB 5 [(⟨5, [1, 0]⟩ : Bucket Nat), ⟨7, [2]⟩]).1
        = ((([(⟨5, [1, 0]⟩ : Bucket Nat), ⟨7, [2]⟩].takeWhile
              fun b => decide (tickdiff b.target 5 ≤ 0)).map
            (fun b => b.events.reverse)).flatten)
    ∧ List.Chain' (fun a b : Bucket Nat => tickdiff a.target b.target < 0)
        (enqueueB 9 6 [(⟨5, [1, 0]⟩ : Bucket Nat), ⟨7, [2]⟩])
    ∧ List.Chain' (fun a b : Bucket Nat => tickdiff a.target b.target < 0)
        ([(⟨5, [1, 0]⟩ : Bucket Nat), ⟨7, [2]⟩].takeWhile
          fun b => decide (tickdiff b.target 5 ≤ 0)) :=
  dequeue_fifo_order [7, 8] 9 5 6 5 [⟨5, [1, 0]⟩, ⟨7, [2]⟩]
    (by decide) (by decide) (by decide)
    (List.chain'_cons.mpr ⟨by decide, List.chain'_singleton _⟩)

/-- C9.  Posting an event whose configured delay is negative
(`e->target < 0`) deallocates the chunk immediately — running its
destructor, if any, and returning the chunk to the freelist — leaves
the pending queue untouched, and returns the nominal packed handle,
which is non-zero whenever the stored generation is at least 1. -/
theorem post_negative_delay_discards (npw2 now : Nat) (st : PostState) (e : PostEvent)
    (hneg : e.target < 0) (hid : 1 ≤ e.id) :
    (equeue_post npw2 now st e).1 ≠ 0
    ∧ ((equeue_post npw2 now st e).2).queue = st.queue
    ∧ ((equeue_post npw2 now st e).2).chunks = memDeallocLoop e.offset e.size st.chunks
    ∧ ((equeue_post npw2 now st e).2).dtorLog
        = st.dtorLog ++ (match e.dtor with
            | some _ => [e.offset]
            | none => []) := by
  unfold equeue_post
  rw [if_pos hneg]
  exact ⟨handle_ne_zero npw2 e.id.toNat e.offset (by omega), rfl, rfl, rfl⟩

/-- Witness for `post_negative_delay_discards` at a concrete discarded
posting. -/
theorem post_negative_delay_discards_witness :
    (equeue_post 7 0 ⟨[], [], []⟩ ⟨5, 48, 1, -3, -1, some 2⟩).1 ≠ 0
    ∧ ((equeue_post 7 0 ⟨[], [], []⟩ ⟨5, 48, 1, -3, -1, some 2⟩).2).queue = ([] : List (Bucket Nat))
    ∧ ((equeue_post 7 0 ⟨[], [], []⟩ ⟨5, 48, 1, -3, -1, some 2⟩).2).chunks
        = memDeallocLoop 5 48 []
    ∧ ((equeue_post 7 0 ⟨[], [], []⟩ ⟨5, 48, 1, -3, -1, some 2⟩).2).dtorLog
        = [] ++ (match (some 2 : Option Nat) with
            | some _ => [5]
            | none => []) :=
  post_negative_delay_discards 7 0 ⟨[], [], []⟩ ⟨5, 48, 1, -3, -1, some 2⟩ (by decide) (by decide)

end Equeue
